import Mathlib

/-!
# Verification of the geoprop terrain/propagation library

This file gives a shallow embedding, in Lean 4, of the parts of the
geoprop repository (crates `nasadem`, `terrain`, `propah`, `itm`,
`hexit`) that the specification talks about, and proves or refutes the
specification claims against that embedding.

Modelling conventions:
* Rust `i16`/`i32`/`u64` arithmetic is modelled on `ℤ`/`ℕ` with explicit
  two's-complement wrapping (`wrap16`, `wrap32`) where the Rust code can
  wrap in release builds.
* Rust `f64` values are modelled as `ℚ` where the code only performs
  field operations and comparisons, and as `ℝ` where transcendental
  functions (`sqrt`, `sin`, `acos`) occur.
* A Rust cast `as isize` / `as i16` on a float truncates toward zero
  (saturating for `as i16`); this is `truncQ` / `i16SatTrunc` below.
* A Rust panic (`unwrap`, `unreachable!`, failed `assert!`) is modelled
  as `Option.none` on the function's result.
-/

namespace Geoprop

/-- Two's-complement wrap of an integer into the signed 16-bit range,
as Rust release-mode `i16` arithmetic. -/
def wrap16 (z : ℤ) : ℤ := (z + 2 ^ 15) % 2 ^ 16 - 2 ^ 15

/-- Two's-complement wrap of an integer into the signed 32-bit range,
as Rust release-mode `i32` arithmetic. -/
def wrap32 (z : ℤ) : ℤ := (z + 2 ^ 31) % 2 ^ 32 - 2 ^ 31

/-- Truncation toward zero, the semantics of Rust `as isize` on an
in-range float. -/
def truncQ (q : ℚ) : ℤ := if 0 ≤ q then ⌊q⌋ else ⌈q⌉

/-- Interpret two bytes as a big-endian signed 16-bit integer
(`byteorder::BigEndian` `read_i16`). -/
def i16FromBE (b0 b1 : ℕ) : ℤ := wrap16 (b0 * 256 + b1)

/-- A geographic coordinate, `geo::geometry::Coord` (`x` = longitude,
`y` = latitude). -/
structure GCoord (α : Type) where
  x : α
  y : α
deriving DecidableEq, Repr

/-- Model of `nasadem::SampleStore`: tombstone, parsed in-memory `i16` samples, or
memory-mapped raw big-endian bytes. -/
inductive SampleStore : Type
  | tombstone : SampleStore
  | inMem (samples : List ℤ) : SampleStore
  | memMap (raw : List ℕ) : SampleStore
deriving DecidableEq, Repr

/-- Decode a byte list as consecutive big-endian `i16` values
(`chunks_exact(2)` followed by `read_i16::<BE>`); a trailing odd byte is
dropped, as `chunks_exact` drops it. -/
def decodeBEPairs : List ℕ → List ℤ
  | b0 :: b1 :: rest => i16FromBE b0 b1 :: decodeBEPairs rest
  | _ => []

namespace SampleStore

/-- Model of `SampleStore::get_unchecked`.  The `InMem` index operation panics when
out of bounds in Rust; all in-repo callers stay in bounds, and the model
returns 0 there. -/
def getUnchecked : SampleStore → ℕ → ℤ
  | .tombstone, _ => 0
  | .inMem samples, index => samples.getD index 0
  | .memMap raw, index => i16FromBE (raw.getD (2 * index) 0) (raw.getD (2 * index + 1) 0)

/-- Model of `SampleStore::min`, faithfully including the fact that the `InMem`
and `MemMap` arms call `.max()` on the samples.  The `unwrap` on an
empty sample list is a panic, modelled as `none`. -/
def minSample : SampleStore → Option ℤ
  | .tombstone => some 0
  | .inMem samples => samples.max?
  | .memMap raw => (decodeBEPairs raw).max?

/-- Model of `SampleStore::max`. -/
def maxSample : SampleStore → Option ℤ
  | .tombstone => some 0
  | .inMem samples => samples.max?
  | .memMap raw => (decodeBEPairs raw).max?

end SampleStore

/-- Model of `nasadem::Tile`.  The `AtomicI16` min/max memo cells are modelled by
their current contents; a freshly constructed tile holds the sentinel
`i16::MAX = 32767` in both. -/
structure Tile where
  swCornerCenter : GCoord ℚ
  neCornerCenter : GCoord ℚ
  resolution : ℕ
  dimensions : ℕ × ℕ
  minElevationCache : ℤ
  maxElevationCache : ℤ
  samples : SampleStore
deriving DecidableEq, Repr

namespace Tile

/-- Model of `Tile::tombstone`: 3-arcsecond dimensions, tombstone sample store. -/
def tombstone (swCorner : GCoord ℤ) : Tile :=
  { swCornerCenter := ⟨(swCorner.x : ℚ), (swCorner.y : ℚ)⟩
    neCornerCenter :=
      ⟨(swCorner.x : ℚ) + (1201 * 3 : ℚ) / 3600, (swCorner.y : ℚ) + (1201 * 3 : ℚ) / 3600⟩
    resolution := 3
    dimensions := (1201, 1201)
    minElevationCache := 32767
    maxElevationCache := 32767
    samples := .tombstone }

/-- Model of `Tile::min_elevation`: return the cached value unless it is the
`i16::MAX` sentinel, in which case compute `samples.min()` (which, in
the source, actually computes the maximum). -/
def minElevation (t : Tile) : Option ℤ :=
  if t.minElevationCache = 32767 then t.samples.minSample else some t.minElevationCache

/-- Model of `Tile::max_elevation`. -/
def maxElevation (t : Tile) : Option ℤ :=
  if t.maxElevationCache = 32767 then t.samples.maxSample else some t.maxElevationCache

/-- Model of `Tile::coord_to_xy`: sample indices of a coordinate, with the Rust
`as isize` cast truncating toward zero. -/
def coordToXY (t : Tile) (coord : GCoord ℚ) : ℤ × ℤ :=
  let c : ℚ := 3600 / (t.resolution : ℚ)
  let cc : ℚ := 1 / (c * 2)
  (truncQ ((coord.x - t.swCornerCenter.x + cc) * c),
   truncQ ((coord.y - t.swCornerCenter.y + cc) * c))

/-- Model of `Tile::xy_to_linear_index`. -/
def xyToLinearIndex (t : Tile) (x y : ℕ) : ℕ :=
  t.dimensions.1 * (t.dimensions.2 - y - 1) + x

/-- Model of `Tile::get`: bounds-checked sample lookup by geographic coordinate. -/
def get (t : Tile) (coord : GCoord ℚ) : Option ℤ :=
  let ix := (t.coordToXY coord).1
  let iy := (t.coordToXY coord).2
  if 0 ≤ ix ∧ ix < (t.dimensions.1 : ℤ) ∧ 0 ≤ iy ∧ iy < (t.dimensions.2 : ℤ) then
    some (t.samples.getUnchecked (t.xyToLinearIndex ix.toNat iy.toNat))
  else
    none

/-- Model of `Tile::get_unchecked`: unchecked sample lookup (callers guarantee the
coordinate is in range). -/
def getUnchecked (t : Tile) (coord : GCoord ℚ) : ℤ :=
  let ix := (t.coordToXY coord).1
  let iy := (t.coordToXY coord).2
  t.samples.getUnchecked (t.xyToLinearIndex ix.toNat iy.toNat)

end Tile

/-! ## Facts about truncation toward zero -/

theorem truncQ_nonneg_iff (q : ℚ) : 0 ≤ truncQ q ↔ -1 < q := by
  unfold truncQ
  split_ifs with h
  · constructor
    · intro _; linarith
    · intro _; exact Int.le_floor.mpr (by exact_mod_cast h)
  · have h2 : (0 ≤ ⌈q⌉) ↔ (-1 < ⌈q⌉) := by omega
    rw [h2, Int.lt_ceil]
    push_cast
    rfl

theorem truncQ_lt_iff (q : ℚ) (m : ℕ) (hm : 0 < m) : truncQ q < (m : ℤ) ↔ q < (m : ℚ) := by
  unfold truncQ
  split_ifs with h
  · rw [Int.floor_lt]
    push_cast
    rfl
  · push_neg at h
    have h1 : ⌈q⌉ ≤ 0 := Int.ceil_le.mpr (by exact_mod_cast h.le)
    have h2 : (0 : ℚ) < (m : ℚ) := by exact_mod_cast hm
    constructor
    · intro _; linarith
    · intro _; omega

/-! ## Claim C1: `min_elevation` -/

/-- A concrete in-memory tile whose two samples differ: samples `[1, 2]`,
one row of two columns, fresh (sentinel-valued) min/max memo cells. -/
def c1Tile : Tile :=
  { swCornerCenter := ⟨0, 0⟩
    neCornerCenter := ⟨2 / 3600, 1 / 3600⟩
    resolution := 1
    dimensions := (2, 1)
    minElevationCache := 32767
    maxElevationCache := 32767
    samples := .inMem [1, 2] }

/-- C1: refuted by the code.  `SampleStore::min` calls `.max()` in both
the `InMem` and `MemMap` arms, so for a tile whose samples are not all
equal `Tile::min_elevation()` returns the highest sample.  On the tile
with samples `[1, 2]`, `min_elevation()` evaluates to `2`, yet the
in-bounds lookup at the SW corner returns the sample `1 < 2`, violating
`e ∈ [T.min_elevation(), T.max_elevation()]`. -/
theorem c1_min_elevation_returns_max :
    c1Tile.minElevation = some 2 ∧
    c1Tile.get ⟨0, 0⟩ = some 1 ∧
    ¬(∀ e, c1Tile.get ⟨0, 0⟩ = some e →
        ∀ m, c1Tile.minElevation = some m → m ≤ e) := by
  have hmin : c1Tile.minElevation = some 2 := by rfl
  have hget : c1Tile.get ⟨0, 0⟩ = some 1 := by
    unfold c1Tile Tile.get Tile.coordToXY Tile.xyToLinearIndex SampleStore.getUnchecked truncQ
    norm_num
  refine ⟨hmin, hget, ?_⟩
  intro h
  have := h 1 hget 2 hmin
  omega

/-! ## Claim C4: `Tile::get` bounds -/

/-- The claim's footprint box, written from the specification text: the
closed box `[sw_corner_center − 0.5 sample, ne_corner_center + 0.5 sample]`
on each axis, with sample width `resolution/3600` degrees. -/
def inClaimedFootprint (t : Tile) (coord : GCoord ℚ) : Prop :=
  let s : ℚ := (t.resolution : ℚ) / 3600
  t.swCornerCenter.x - s / 2 ≤ coord.x ∧ coord.x ≤ t.neCornerCenter.x + s / 2 ∧
  t.swCornerCenter.y - s / 2 ≤ coord.y ∧ coord.y ≤ t.neCornerCenter.y + s / 2

instance (t : Tile) (coord : GCoord ℚ) : Decidable (inClaimedFootprint t coord) := by
  unfold inClaimedFootprint
  exact inferInstance

/-- C4, counterexample: the coordinate `(x = −1/1000, y = 1/2)` lies
strictly outside the footprint of the tombstone tile at SW corner
`(0, 0)` (it is more than half a sample west of the SW sample center),
yet `Tile::get` returns `Some 0` for it, because the `as isize` cast
truncates `−0.7` toward zero to index `0`. -/
theorem c4_outside_footprint_still_some :
    ¬ inClaimedFootprint (Tile.tombstone ⟨0, 0⟩) ⟨-1/1000, 1/2⟩ ∧
    Tile.get (Tile.tombstone ⟨0, 0⟩) ⟨-1/1000, 1/2⟩ = some 0 := by
  constructor
  · unfold inClaimedFootprint Tile.tombstone
    norm_num
  · have hxy : Tile.coordToXY (Tile.tombstone ⟨0, 0⟩) ⟨-1/1000, 1/2⟩ = (0, 600) := by
      unfold Tile.tombstone Tile.coordToXY truncQ
      norm_num
    unfold Tile.get
    rw [hxy]
    norm_num [Tile.tombstone, Tile.xyToLinearIndex, SampleStore.getUnchecked]

/-- Helper for the amended C4 statement: the index test on one axis,
after the truncating cast, is equivalent to an open coordinate interval
that extends a full sample (not half a sample) below the SW sample
center and stops half a sample before `sw + dim` samples. -/
theorem axis_index_iff (res m : ℕ) (hres : 0 < res) (hm : 0 < m) (sw v : ℚ) :
    (0 ≤ truncQ ((v - sw + 1 / (3600 / (res : ℚ) * 2)) * (3600 / (res : ℚ))) ∧
      truncQ ((v - sw + 1 / (3600 / (res : ℚ) * 2)) * (3600 / (res : ℚ))) < (m : ℤ)) ↔
    (sw - 3 * ((res : ℚ) / 3600) / 2 < v ∧
      v < sw + ((m : ℚ) - 1 / 2) * ((res : ℚ) / 3600)) := by
  have hres0 : ((res : ℚ)) ≠ 0 := by
    exact_mod_cast hres.ne.symm
  set c : ℚ := 3600 / (res : ℚ) with hcdef
  have hc : (0 : ℚ) < c := by
    rw [hcdef]
    positivity
  have hq : (v - sw + 1 / (c * 2)) * c = (v - sw) * c + 1 / 2 := by
    field_simp
    ring
  rw [truncQ_nonneg_iff, truncQ_lt_iff _ _ hm, hq]
  have e1 : (-3 / 2 : ℚ) / c = -(3 * ((res : ℚ) / 3600) / 2) := by
    rw [hcdef]
    field_simp
    ring
  have e2 : ((m : ℚ) - 1 / 2) / c = ((m : ℚ) - 1 / 2) * ((res : ℚ) / 3600) := by
    rw [hcdef]
    field_simp
  constructor
  · rintro ⟨h1, h2⟩
    constructor
    · have h3 : (-3 / 2 : ℚ) < (v - sw) * c := by linarith
      have h4 : (-3 / 2 : ℚ) / c < v - sw := (div_lt_iff₀ hc).mpr h3
      rw [e1] at h4
      linarith
    · have h3 : (v - sw) * c < (m : ℚ) - 1 / 2 := by linarith
      have h4 : v - sw < ((m : ℚ) - 1 / 2) / c := (lt_div_iff₀ hc).mpr h3
      rw [e2] at h4
      linarith
  · rintro ⟨h1, h2⟩
    constructor
    · have h4 : (-3 / 2 : ℚ) / c < v - sw := by
        rw [e1]
        linarith
      have h3 : (-3 / 2 : ℚ) < (v - sw) * c := (div_lt_iff₀ hc).mp h4
      linarith
    · have h4 : v - sw < ((m : ℚ) - 1 / 2) / c := by
        rw [e2]
        linarith
      have h3 : (v - sw) * c < (m : ℚ) - 1 / 2 := (lt_div_iff₀ hc).mp h4
      linarith

/-- C4, amended.  Because `coord_to_xy` truncates toward zero (Rust
`as isize`), `T.get(C)` returns `Some` exactly when `C` lies in the open
box `(sw_center − 1.5·sample, sw_center + (cols − 0.5)·sample)` ×
`(sw_center − 1.5·sample, sw_center + (rows − 0.5)·sample)` — one full
sample wider than the claimed footprint on the west and south sides, one
full sample narrower on the east and north sides measured from the
code's `ne_corner_center = sw + dims·sample`; outside this box it
returns `None`. -/
theorem c4_get_amended (t : Tile) (coord : GCoord ℚ)
    (hres : 0 < t.resolution) (hcols : 0 < t.dimensions.1) (hrows : 0 < t.dimensions.2) :
    ((t.get coord).isSome = true) ↔
      (t.swCornerCenter.x - 3 * ((t.resolution : ℚ) / 3600) / 2 < coord.x ∧
       coord.x < t.swCornerCenter.x + ((t.dimensions.1 : ℚ) - 1 / 2) * ((t.resolution : ℚ) / 3600) ∧
       t.swCornerCenter.y - 3 * ((t.resolution : ℚ) / 3600) / 2 < coord.y ∧
       coord.y < t.swCornerCenter.y + ((t.dimensions.2 : ℚ) - 1 / 2) * ((t.resolution : ℚ) / 3600)) := by
  have hx := axis_index_iff t.resolution t.dimensions.1 hres hcols t.swCornerCenter.x coord.x
  have hy := axis_index_iff t.resolution t.dimensions.2 hres hrows t.swCornerCenter.y coord.y
  simp only [Tile.get, Tile.coordToXY]
  split_ifs with h
  · simp only [Option.isSome_some, true_iff]
    obtain ⟨a1, a2, a3, a4⟩ := h
    obtain ⟨b1, b2⟩ := hx.mp ⟨a1, a2⟩
    obtain ⟨b3, b4⟩ := hy.mp ⟨a3, a4⟩
    refine ⟨by linarith, by linarith, by linarith, by linarith⟩
  · simp only [Option.isSome_none, Bool.false_eq_true, false_iff]
    intro hbox
    apply h
    obtain ⟨b1, b2, b3, b4⟩ := hbox
    obtain ⟨a1, a2⟩ := hx.mpr ⟨by linarith, by linarith⟩
    obtain ⟨a3, a4⟩ := hy.mpr ⟨by linarith, by linarith⟩
    exact ⟨a1, a2, a3, a4⟩

/-- Witness for `c4_get_amended`: on the tombstone tile at `(0, 0)` and
the interior coordinate `(1/2, 1/2)`, the amended characterization
applies and yields a successful lookup. -/
theorem c4_get_amended_witness :
    ((Tile.tombstone ⟨0, 0⟩).get ⟨1/2, 1/2⟩).isSome = true := by
  have h := c4_get_amended (Tile.tombstone ⟨0, 0⟩) ⟨1/2, 1/2⟩ (by decide) (by decide) (by decide)
  rw [h]
  unfold Tile.tombstone
  norm_num

/-! ## Claim C5: missing tile becomes a tombstone -/

/-- Model of `std::io::ErrorKind`, restricted to what the code inspects. -/
inductive IoErrKind : Type
  | notFound : IoErrKind
  | other : IoErrKind
deriving DecidableEq, Repr

/-- Model of `nasadem::NasademError`. -/
inductive NasademError : Type
  | io (kind : IoErrKind) : NasademError
  | hgtName : NasademError
  | hgtLen (len : ℕ) : NasademError
deriving DecidableEq, Repr

/-- Model of `terrain::TerrainError`. -/
inductive TerrainError : Type
  | builder (param : List Char) : TerrainError
  | io (kind : IoErrKind) : TerrainError
  | path (dir : List Char) : TerrainError
  | nasadem (e : NasademError) : TerrainError
deriving DecidableEq, Repr

/-- Model of `terrain::tiles::sw_corner`: floor of both coordinates.  (The Rust
code writes `x.floor() as i16`; for the geographic range the cast does
not wrap.) -/
def swCorner (coord : GCoord ℚ) : GCoord ℤ := ⟨⌊coord.x⌋, ⌊coord.y⌋⟩

/-- Model of `Tiles::get`.  The `DashMap` state is modelled by the function
`cached`, and the filesystem by `loadTile`, the outcome `load_tile`
would produce for a SW corner.  On a cache miss, `or_try_insert_with`
runs the closure: a `NasademError::Io` of kind `NotFound` is replaced by
a tombstone tile, any other error is surfaced. -/
def tilesGet (cached : GCoord ℤ → Option Tile)
    (loadTile : GCoord ℤ → Except TerrainError Tile)
    (coord : GCoord ℚ) : Except TerrainError Tile :=
  let sw := swCorner coord
  match cached sw with
  | some t => .ok t
  | none =>
    match loadTile sw with
    | .ok tile => .ok tile
    | .error (TerrainError.nasadem (NasademError.io IoErrKind.notFound)) =>
        .ok (Tile.tombstone sw)
    | .error e => .error e

/-- C5: if the SW corner is not cached and loading its height file fails
with a `NotFound` I/O error, `Tiles::get` succeeds with the tombstone
tile for that corner, and every in-bounds lookup on that tombstone
returns `Some 0`. -/
theorem c5_missing_tile_tombstone (cached : GCoord ℤ → Option Tile)
    (loadTile : GCoord ℤ → Except TerrainError Tile) (coord : GCoord ℚ)
    (huncached : cached (swCorner coord) = none)
    (hmissing : loadTile (swCorner coord) =
      .error (.nasadem (.io .notFound))) :
    tilesGet cached loadTile coord = .ok (Tile.tombstone (swCorner coord)) ∧
    ∀ c2 : GCoord ℚ, ((Tile.tombstone (swCorner coord)).get c2).isSome = true →
      (Tile.tombstone (swCorner coord)).get c2 = some 0 := by
  constructor
  · simp only [tilesGet]
    rw [huncached, hmissing]
  · intro c2 h
    simp only [Tile.get] at h ⊢
    split_ifs at h ⊢ with hc
    · simp [Tile.tombstone, SampleStore.getUnchecked]
    · simp at h

/-- Witness for `c5_missing_tile_tombstone` at the concrete coordinate
`(1/2, 1/2)` over an empty cache and a filesystem with no height
files. -/
theorem c5_missing_tile_tombstone_witness :
    tilesGet (fun _ => none) (fun _ => .error (.nasadem (.io .notFound))) ⟨1/2, 1/2⟩ =
      .ok (Tile.tombstone (swCorner ⟨1/2, 1/2⟩)) ∧
    (Tile.tombstone (swCorner ⟨1/2, 1/2⟩)).get ⟨1/2, 1/2⟩ = some 0 := by
  have h := c5_missing_tile_tombstone (fun _ => none)
    (fun _ => .error (.nasadem (.io .notFound))) ⟨1/2, 1/2⟩ rfl rfl
  refine ⟨h.1, h.2 _ ?_⟩
  have hsw : swCorner ⟨1/2, 1/2⟩ = (⟨0, 0⟩ : GCoord ℤ) := by
    unfold swCorner
    norm_num
  rw [hsw]
  have hxy : Tile.coordToXY (Tile.tombstone ⟨0, 0⟩) ⟨1/2, 1/2⟩ = (600, 600) := by
    unfold Tile.tombstone Tile.coordToXY truncQ
    norm_num
  simp only [Tile.get, hxy]
  norm_num [Tile.tombstone]

/-! ## Claim C8: `Tiles::new` height-file scan -/

/-- Suffix of a character list after its last dot, if any. -/
def afterLastDot : List Char → Option (List Char)
  | [] => none
  | c :: rest =>
    match afterLastDot rest with
    | some e => some e
    | none => if c = Char.ofNat 46 then some rest else none

/-- Model of `std::path::Path::extension` on a file name: the portion after the
final dot, except that a leading dot (hidden file) does not begin an
extension. -/
def pathExtension (name : List Char) : Option (List Char) :=
  match name with
  | c :: rest => if c = Char.ofNat 46 then afterLastDot rest else afterLastDot (c :: rest)
  | [] => none

/-- Model of `Tiles::new`'s directory scan: walk the entries, propagating the
first I/O error, stopping as soon as an entry's extension equals the
exact (case-sensitive) string `hgt`. -/
def scanForHgt : List (Except IoErrKind (List Char)) → Except TerrainError Bool
  | [] => .ok false
  | .error e :: _ => .error (.io e)
  | .ok name :: rest =>
    if pathExtension name = some [Char.ofNat 104, Char.ofNat 103, Char.ofNat 116] then
      .ok true
    else
      scanForHgt rest

/-- Model of `Tiles::new`: succeed exactly when the scan found a `hgt` entry,
otherwise fail with `TerrainError::Path(dir)`; scan errors surface as
I/O errors. -/
def tilesNew (dir : List Char) (entries : List (Except IoErrKind (List Char))) :
    Except TerrainError Unit :=
  match scanForHgt entries with
  | .error e => .error e
  | .ok true => .ok ()
  | .ok false => .error (.path dir)

/-- The exact extension string the scan compares against: `hgt`. -/
def hgtExt : List Char := [Char.ofNat 104, Char.ofNat 103, Char.ofNat 116]

/-- C8, counterexample: a directory containing only the file
`N44W072.HGT` (uppercase extension) is rejected with the
`NoHeightFiles` error (`TerrainError::Path`), because the scan compares
the extension case-sensitively against `"hgt"`; the claim says such a
directory must succeed. -/
theorem c8_uppercase_hgt_rejected :
    tilesNew (String.toList "d") [.ok (String.toList "N44W072.HGT")] =
      .error (.path (String.toList "d")) := by
  rfl

theorem scanForHgt_map_ok (entries : List (List Char)) :
    scanForHgt (entries.map Except.ok) =
      .ok (entries.any fun n => decide (pathExtension n = some hgtExt)) := by
  induction entries with
  | nil => rfl
  | cons n rest ih =>
      simp only [List.map_cons, scanForHgt, List.any_cons]
      by_cases h : pathExtension n = some hgtExt
      · simp [h, hgtExt]
      · simp only [hgtExt] at h
        simp [h, ih, hgtExt]

/-- C8, amended: over a directory scan that yields no I/O errors,
`Tiles::new` succeeds exactly when some entry's extension is the exact,
case-sensitively compared, string `hgt`; otherwise it fails with
`NoHeightFiles` (`TerrainError::Path(dir)`).  A directory whose only
height files use the uppercase extension `.HGT` therefore fails.
(Scan errors surface as `Io` errors, as the claim says.) -/
theorem c8_tiles_new_amended (dir : List Char) (entries : List (List Char)) :
    (tilesNew dir (entries.map Except.ok) = .ok () ↔
      ∃ name ∈ entries, pathExtension name = some hgtExt) ∧
    (tilesNew dir (entries.map Except.ok) = .error (.path dir) ↔
      ¬∃ name ∈ entries, pathExtension name = some hgtExt) := by
  simp only [tilesNew, scanForHgt_map_ok]
  rcases hany : entries.any fun n => decide (pathExtension n = some hgtExt) with _ | _
  · simp only [List.any_eq_false, decide_eq_true_iff] at hany
    constructor
    · simp only [reduceCtorEq, false_iff]
      rintro ⟨name, hmem, hext⟩
      exact hany name hmem hext
    · simp only [Except.error.injEq, TerrainError.path.injEq, true_iff]
      rintro ⟨name, hmem, hext⟩
      exact hany name hmem hext
  · simp only [List.any_eq_true, decide_eq_true_iff] at hany
    constructor
    · simpa using hany
    · simp only [reduceCtorEq, false_iff, not_not]
      simpa using hany

/-! ## Claim C3: `ItmErrCode::from_retcode` -/

/-- Model of `itm::ItmErrCode`: the fixed error taxonomy of the propagation
engine. -/
inductive ItmErrCode : Type
  | txTerminalHeight
  | rxTerminalHeight
  | invalidRadioClimate
  | invalidTime
  | invalidLocation
  | invalidSituation
  | invalidConfidence
  | invalidReliability
  | refractivity
  | frequency
  | polarization
  | epsilon
  | sigma
  | groundImpedance
  | mdvar
  | effectiveEarth
  | pathDistance
  | deltaH
  | txSitingCriteria
  | rxSitingCriteria
  | surfaceRefractivitySmall
  | surfaceRefractivityLarge
deriving DecidableEq, Repr

/-- Model of `ItmErrCode::from_retcode`.  Codes `0`/`1` return `Ok`; the listed
codes return the matching enumerant; every other code hits
`unreachable!()`, a panic, modelled as `none`. -/
def fromRetcode (errCode : ℤ) : Option (Except ItmErrCode Unit) :=
  if errCode = 0 ∨ errCode = 1 then some (.ok ())
  else if errCode = 1000 then some (.error .txTerminalHeight)
  else if errCode = 1001 then some (.error .rxTerminalHeight)
  else if errCode = 1002 then some (.error .invalidRadioClimate)
  else if errCode = 1003 then some (.error .invalidTime)
  else if errCode = 1004 then some (.error .invalidLocation)
  else if errCode = 1005 then some (.error .invalidSituation)
  else if errCode = 1006 then some (.error .invalidConfidence)
  else if errCode = 1007 then some (.error .invalidReliability)
  else if errCode = 1008 then some (.error .refractivity)
  else if errCode = 1009 then some (.error .frequency)
  else if errCode = 1010 then some (.error .polarization)
  else if errCode = 1011 then some (.error .epsilon)
  else if errCode = 1012 then some (.error .sigma)
  else if errCode = 1013 then some (.error .groundImpedance)
  else if errCode = 1014 then some (.error .mdvar)
  else if errCode = 1016 then some (.error .effectiveEarth)
  else if errCode = 1017 then some (.error .pathDistance)
  else if errCode = 1018 then some (.error .deltaH)
  else if errCode = 1019 then some (.error .txSitingCriteria)
  else if errCode = 1020 then some (.error .rxSitingCriteria)
  else if errCode = 1021 then some (.error .surfaceRefractivitySmall)
  else if errCode = 1022 then some (.error .surfaceRefractivityLarge)
  else none

/-- C3, counterexample: the claim says every code other than `0`/`1`
returns `Err` with an enumerant and that there is no third outcome; but
return code `2` falls through to `unreachable!()` and panics (so does
the gap code `1015`). -/
theorem c3_unknown_code_panics :
    fromRetcode 2 = none ∧ fromRetcode 1015 = none ∧
    ¬∃ e : ItmErrCode, fromRetcode 2 = some (.error e) := by
  refine ⟨rfl, rfl, ?_⟩
  rintro ⟨e, he⟩
  rw [show fromRetcode 2 = none from rfl] at he
  exact Option.noConfusion he

set_option maxHeartbeats 1600000 in
/-- C3, amended: `from_retcode` returns `Ok` exactly for codes `0` and
`1`; it returns `Err` with a specific enumerant exactly for codes
`1000`–`1014` and `1016`–`1022`; every other code (for example `2` or
the gap code `1015`) panics via `unreachable!()` instead of returning. -/
theorem c3_retcode_taxonomy :
    (∀ c : ℤ, fromRetcode c = some (.ok ()) ↔ (c = 0 ∨ c = 1)) ∧
    (∀ c : ℤ, (∃ e : ItmErrCode, fromRetcode c = some (.error e)) ↔
      ((1000 ≤ c ∧ c ≤ 1014) ∨ (1016 ≤ c ∧ c ≤ 1022))) ∧
    (∀ c : ℤ, fromRetcode c = none ↔
      (¬(c = 0 ∨ c = 1) ∧ ¬((1000 ≤ c ∧ c ≤ 1014) ∨ (1016 ≤ c ∧ c ≤ 1022)))) := by
  have herr : ∀ c : ℤ, ((1000 ≤ c ∧ c ≤ 1014) ∨ (1016 ≤ c ∧ c ≤ 1022)) →
      ∃ e : ItmErrCode, fromRetcode c = some (.error e) := by
    intro c h
    rcases h with ⟨h1, h2⟩ | ⟨h1, h2⟩ <;> interval_cases c <;> exact ⟨_, rfl⟩
  have hnone : ∀ c : ℤ, ¬(c = 0 ∨ c = 1) →
      ¬((1000 ≤ c ∧ c ≤ 1014) ∨ (1016 ≤ c ∧ c ≤ 1022)) → fromRetcode c = none := by
    intro c h0 h2
    unfold fromRetcode
    repeat rw [if_neg (by omega)]
  have hok : ∀ c : ℤ, (c = 0 ∨ c = 1) → fromRetcode c = some (.ok ()) := by
    intro c h
    rcases h with h | h <;> subst h <;> rfl
  refine ⟨?_, ?_, ?_⟩
  · intro c
    constructor
    · intro h
      by_contra hc
      by_cases hr : ((1000 ≤ c ∧ c ≤ 1014) ∨ (1016 ≤ c ∧ c ≤ 1022))
      · obtain ⟨e, he⟩ := herr c hr
        rw [he] at h
        exact Except.noConfusion (Option.some.inj h)
      · rw [hnone c hc hr] at h
        exact Option.noConfusion h
    · exact hok c
  · intro c
    constructor
    · rintro ⟨e, he⟩
      by_contra hr
      by_cases h0 : (c = 0 ∨ c = 1)
      · rw [hok c h0] at he
        exact Except.noConfusion (Option.some.inj he)
      · rw [hnone c h0 hr] at he
        exact Option.noConfusion he
    · exact herr c
  · intro c
    constructor
    · intro h
      constructor
      · intro h0
        rw [hok c h0] at h
        exact Option.noConfusion h
      · intro hr
        obtain ⟨e, he⟩ := herr c hr
        rw [he] at h
        exact Option.noConfusion h
    · rintro ⟨h0, hr⟩
      exact hnone c h0 hr

/-! ## Claim C9: `Elevation::concat` -/

/-- Model of `hexit::elevation::Elevation`: an elevation summary.  Fields are the
Rust `i16`/`i32` values. -/
structure Elevation where
  emin : ℤ
  emax : ℤ
  sum : ℤ
  n : ℤ
deriving DecidableEq, Repr

/-- Model of `Elevation::concat`: fold the items over accumulators initialised to
`i16::MAX` / `i16::MIN` / `0` / `0`, taking the minimum of mins, maximum
of maxes, and release-mode (wrapping) `i32` sums of `sum` and `n`. -/
def Elevation.concat (items : List Elevation) : Elevation :=
  items.foldl
    (fun acc item =>
      { emin := min acc.emin item.emin
        emax := max acc.emax item.emax
        sum := wrap32 (acc.sum + item.sum)
        n := wrap32 (acc.n + item.n) })
    ⟨32767, -32768, 0, 0⟩

/-- The binary combination `Elevation::concat(&[a, b])` of two
summaries. -/
def Elevation.concat2 (a b : Elevation) : Elevation := Elevation.concat [a, b]

theorem wrap32_absorb_left (x y : ℤ) : wrap32 (wrap32 x + y) = wrap32 (x + y) := by
  unfold wrap32
  omega

theorem wrap32_absorb_right (x y : ℤ) : wrap32 (x + wrap32 y) = wrap32 (x + y) := by
  unfold wrap32
  omega

/-- C9: `Elevation::concat` is commutative and associative as a binary
operation, so folding a multiset of summaries in any order and grouping
produces the same `{min, max, sum, n}` result (min/max are lattice
operations and wrapping `i32` addition is commutative and
associative). -/
theorem c9_concat_comm_assoc :
    (∀ a b : Elevation, Elevation.concat2 a b = Elevation.concat2 b a) ∧
    (∀ a b c : Elevation,
      Elevation.concat2 (Elevation.concat2 a b) c =
      Elevation.concat2 a (Elevation.concat2 b c)) := by
  constructor
  · intro a b
    simp only [Elevation.concat2, Elevation.concat, List.foldl_cons, List.foldl_nil,
      Elevation.mk.injEq]
    refine ⟨?_, ?_, ?_, ?_⟩ <;> first
      | omega
      | (unfold wrap32; omega)
  · intro a b c
    simp only [Elevation.concat2, Elevation.concat, List.foldl_cons, List.foldl_nil,
      Elevation.mk.injEq]
    refine ⟨?_, ?_, ?_, ?_⟩ <;> first
      | omega
      | (unfold wrap32; omega)

/-! ## Claim C2: the tessellation file format -/

/-- Little-endian encoding of a `u64` (`byteorder::LittleEndian`
`write_u64`). -/
def le64 (v : ℕ) : List ℕ :=
  [v % 256, v / 256 % 256, v / 256 ^ 2 % 256, v / 256 ^ 3 % 256,
   v / 256 ^ 4 % 256, v / 256 ^ 5 % 256, v / 256 ^ 6 % 256, v / 256 ^ 7 % 256]

/-- Little-endian two's-complement encoding of an `i16`
(`write_i16::<LE>`). -/
def i16ToLE (z : ℤ) : List ℕ :=
  [(z % 65536).toNat % 256, (z % 65536).toNat / 256]

/-- Model of `Tesselate::write_to_disk` on the (cell, elevation) sequence an
`iter()` of the per-tile hextree yields: the entry count as `u64_le`
followed by, per entry, the raw cell id as `u64_le` then the elevation
as `i16_le`.  (The gzip wrapping is a transparent codec and is modelled
as the identity on the byte stream.) -/
def writeTessellation (entries : List (ℕ × ℤ)) : List ℕ :=
  le64 entries.length ++ entries.foldr (fun ce acc => le64 ce.1 ++ i16ToLE ce.2 ++ acc) []

/-- Model of `read_u64::<LE>`: consume eight bytes (EOF, i.e. too few bytes, is
an error). -/
def readU64 : List ℕ → Option (ℕ × List ℕ)
  | b0 :: b1 :: b2 :: b3 :: b4 :: b5 :: b6 :: b7 :: rest =>
      some (b0 + 256 * (b1 + 256 * (b2 + 256 * (b3 + 256 *
        (b4 + 256 * (b5 + 256 * (b6 + 256 * b7)))))), rest)
  | _ => none

/-- Model of `read_u16::<LE>`: consume two bytes. -/
def readU16 : List ℕ → Option (ℕ × List ℕ)
  | b0 :: b1 :: rest => some (b0 + 256 * b1, rest)
  | _ => none

/-- Model of `read_i16::<LE>`: consume two bytes, two's complement. -/
def readI16 (bytes : List ℕ) : Option (ℤ × List ℕ) :=
  (readU16 bytes).map (fun p => (wrap16 p.1, p.2))

/-- The inner loop of `Combine::read_tessellation`: read `n` raw cell
ids. -/
def readCells : ℕ → List ℕ → Option (List ℕ × List ℕ)
  | 0, bytes => some ([], bytes)
  | n + 1, bytes => do
      let (c, bytes1) ← readU64 bytes
      let (cs, bytes2) ← readCells n bytes1
      pure (c :: cs, bytes2)

/-- The outer loop of `Combine::read_tessellation`: per sample, an
`i16_le` elevation, then a `u16_le` cell count, then that many `u64_le`
cell ids, each inserted with the sample's elevation. -/
def readRecords : ℕ → List ℕ → Option (List (ℕ × ℤ) × List ℕ)
  | 0, bytes => some ([], bytes)
  | n + 1, bytes => do
      let (elevation, bytes1) ← readI16 bytes
      let (ncells, bytes2) ← readU16 bytes1
      let (cells, bytes3) ← readCells ncells bytes2
      let (rest, bytes4) ← readRecords n bytes3
      pure (cells.map (fun c => (c, elevation)) ++ rest, bytes4)

/-- Model of `Combine::read_tessellation` on an uncompressed byte stream: read the
`u64_le` sample count, decode that many records, then assert end of
file (`assert!(rdr.read_u8().is_err())`); a failed read or leftover
bytes is an error/panic, modelled as `none`.  (The optional mask is
absent, so every decoded cell is kept.) -/
def readTessellation (bytes : List ℕ) : Option (List (ℕ × ℤ)) := do
  let (n, bytes1) ← readU64 bytes
  let (records, bytes2) ← readRecords n bytes1
  if bytes2.isEmpty then pure records else none

/-- C2: refuted by the code.  The writer emits
`u64_le count ++ (u64_le cell ++ i16_le elev)*`, but the reader expects
`u64_le count ++ (i16_le elev ++ u16_le n_cells ++ u64_le cell * n_cells)*`.
On the single-entry tessellation `{cell = 0x8C2A100ACC687FF,
elevation = 42}` the reader consumes the cell id's low bytes as an
elevation, reads `0xACC6` from its middle bytes as a cell count, and
then fails: parsing the writer's output is an error, not a lossless
round-trip. -/
theorem c2_reader_rejects_writer_output :
    readTessellation (writeTessellation [(0x8C2A100ACC687FF, 42)]) = none := by
  rfl

/-! ## Claim C6: walker and profile lengths -/

/-- Model of `terrain::math::HaversineIter`, with the spherical interpolation
`get_point(params, f)` abstracted into the function `pt` (its values do
not influence the iteration).  `stepSizeM` is carried as in the
source. -/
structure HIter (P : Type) where
  start : Option P
  stop : Option P
  pt : ℚ → P
  stepSizeM : ℚ
  interval : ℚ
  currentStep : ℚ

/-- Model of `HaversineIter::new`: `number_of_points = ceil(total/max_step)`,
`step_size = total/number_of_points`, `interval = 1/number_of_points`,
`current_step = 0`. -/
def HIter.new {P : Type} (startP stopP : P) (pt : ℚ → P)
    (totalDistance maxStepSize : ℚ) : HIter P :=
  let numberOfPoints : ℚ := ((⌈totalDistance / maxStepSize⌉ : ℤ) : ℚ)
  { start := some startP
    stop := some stopP
    pt := pt
    stepSizeM := totalDistance / numberOfPoints
    interval := 1 / numberOfPoints
    currentStep := 0 }

/-- Model of `HaversineIter::next`: emit the start point first (advancing the
step), then interpolated points while `current_step < 1`, then the end
point, then `None`. -/
def HIter.next {P : Type} (it : HIter P) : Option (P × HIter P) :=
  match it.start with
  | some s => some (s, { it with start := none, currentStep := it.currentStep + it.interval })
  | none =>
    if it.currentStep < 1 then
      some (it.pt it.currentStep, { it with currentStep := it.currentStep + it.interval })
    else
      match it.stop with
      | some e => some (e, { it with stop := none })
      | none => none

/-- Collecting the iterator, with fuel: runs `next` until it returns
`None` or the fuel runs out. -/
def HIter.collect {P : Type} : ℕ → HIter P → List P
  | 0, _ => []
  | fuel + 1, it =>
    match it.next with
    | none => []
    | some (p, it2) => p :: HIter.collect fuel it2

/-- The mid-iteration state after emitting the start point and `k − 1`
interpolated points. -/
def HIter.midState {P : Type} (stopP : P) (pt : ℚ → P) (ss : ℚ) (N k : ℕ) : HIter P :=
  { start := none
    stop := some stopP
    pt := pt
    stepSizeM := ss
    interval := 1 / (N : ℚ)
    currentStep := (k : ℚ) / (N : ℚ) }

theorem collect_midState_length {P : Type} (stopP : P) (pt : ℚ → P) (ss : ℚ)
    (N : ℕ) (hN : 1 ≤ N) :
    ∀ j k fuel : ℕ, N - k = j → 1 ≤ k → k ≤ N → j + 2 ≤ fuel →
      (HIter.collect fuel (HIter.midState stopP pt ss N k)).length = N - k + 1 := by
  have hN0 : ((N : ℚ)) ≠ 0 := by
    have : N ≠ 0 := by omega
    exact_mod_cast this
  intro j
  induction j with
  | zero =>
    intro k fuel hj hk1 hkN hfuel
    have hkeq : k = N := by omega
    subst hkeq
    obtain ⟨f, rfl⟩ : ∃ f, fuel = f + 1 := ⟨fuel - 1, by omega⟩
    obtain ⟨f2, rfl⟩ : ∃ f2, f = f2 + 1 := ⟨f - 1, by omega⟩
    have hcur : ((k : ℚ) / (k : ℚ)) = 1 := div_self hN0
    simp only [HIter.collect, HIter.next, HIter.midState, hcur, lt_self_iff_false, if_false]
    simp [HIter.collect, HIter.next]
  | succ j ih =>
    intro k fuel hj hk1 hkN hfuel
    have hkN2 : k < N := by omega
    obtain ⟨f, rfl⟩ : ∃ f, fuel = f + 1 := ⟨fuel - 1, by omega⟩
    have hlt : ((k : ℚ) / (N : ℚ)) < 1 := by
      rw [div_lt_one (by positivity)]
      exact_mod_cast hkN2
    have hstep : ((k : ℚ) / (N : ℚ)) + 1 / (N : ℚ) = ((k + 1 : ℕ) : ℚ) / (N : ℚ) := by
      push_cast
      field_simp
    simp only [HIter.collect, HIter.next, HIter.midState, hlt, if_true, List.length_cons]
    have := ih (k + 1) f (by omega) (by omega) (by omega) (by omega)
    simp only [HIter.midState] at this
    rw [show ((k : ℚ) / (N : ℚ) + 1 / (N : ℚ)) = ((k + 1 : ℕ) : ℚ) / (N : ℚ) from hstep, this]
    omega

/-- The walker emits exactly `N + 1` points, where
`N = ceil(d / maxStep)`, provided the fuel covers the whole
iteration. -/
theorem collect_new_length {P : Type} (a b : P) (pt : ℚ → P) (d s : ℚ)
    (hd : 0 < d) (hs : 0 < s) (fuel : ℕ)
    (hfuel : (⌈d / s⌉).toNat + 2 ≤ fuel) :
    ((HIter.new a b pt d s).collect fuel).length = (⌈d / s⌉).toNat + 1 := by
  set N : ℕ := (⌈d / s⌉).toNat with hNdef
  have hceil : 0 < ⌈d / s⌉ := Int.ceil_pos.mpr (by positivity)
  have hN1 : 1 ≤ N := by omega
  have hcast : ((⌈d / s⌉ : ℤ) : ℚ) = ((N : ℕ) : ℚ) := by
    rw [hNdef]
    exact_mod_cast (Int.toNat_of_nonneg hceil.le).symm
  obtain ⟨f, rfl⟩ : ∃ f, fuel = f + 1 := ⟨fuel - 1, by omega⟩
  simp only [HIter.collect, HIter.new, HIter.next, hcast, List.length_cons]
  have hzero : (0 : ℚ) + 1 / ((N : ℕ) : ℚ) = ((1 : ℕ) : ℚ) / ((N : ℕ) : ℚ) := by
    push_cast
    ring
  rw [hzero]
  have := collect_midState_length b pt (d / ((N : ℕ) : ℚ)) N hN1 (N - 1) 1 f rfl le_rfl hN1
    (by omega)
  simp only [HIter.midState] at this
  rw [this]
  omega

/-- Model of `terrain::math::linspace`: `n` evenly spaced values from `y0` toward
`y1` with spacing `(y1 − y0)/(n − 1)`. -/
def linspace (y0 y1 : ℚ) (n : ℕ) : List ℚ :=
  (List.range n).map (fun x : ℕ => y0 + (x : ℚ) * ((y1 - y0) / ((n : ℚ) - 1)))

/-- The terrain loop of `ProfileBuilder::build`: walk the great-circle
points carrying a one-tile cache; on a cache hit push the checked
elevation, otherwise fetch the containing tile from the store and push
the unchecked elevation. -/
def buildTerrain (tiles : GCoord ℚ → Except TerrainError Tile) :
    Tile → List (GCoord ℚ) → List ℤ → Except TerrainError (List ℤ)
  | _, [], acc => .ok acc.reverse
  | tile, p :: rest, acc =>
    match tile.get p with
    | some elevation => buildTerrain tiles tile rest (elevation :: acc)
    | none =>
      match tiles p with
      | .error e => .error e
      | .ok tile2 => buildTerrain tiles tile2 rest (tile2.getUnchecked p :: acc)

/-- Model of `terrain::Profile` (earth-curve disabled): the parallel output
vectors. -/
structure MProfile where
  distanceM : ℚ
  stepSizeM : ℚ
  greatCircle : List (GCoord ℚ)
  terrain : List ℤ
  los : List ℚ
deriving Repr

/-- Model of `ProfileBuilder::build` with `earth_curve = false`.  The haversine
arc length `d` between `startC` and `endC` (computed in the source by
the geo crate's trigonometry) and the spherical interpolation `pt` are
taken as parameters; the walker is collected to exhaustion (the fuel
`⌈d/maxStep⌉ + 2` covers the whole iteration).  The `first()/last()`
unwraps assume a nonempty terrain, and the `i16` additions of the
altitude offsets wrap as in release mode. -/
def profileBuild (tiles : GCoord ℚ → Except TerrainError Tile)
    (startC endC : GCoord ℚ) (maxStepM : ℚ) (startAltM endAltM : ℤ)
    (d : ℚ) (pt : ℚ → GCoord ℚ) : Except TerrainError MProfile := do
  let gc := (HIter.new startC endC pt d maxStepM).collect ((⌈d / maxStepM⌉).toNat + 2)
  let stepSize := d / ((gc.length : ℚ) - 1)
  let tile0 ← tiles startC
  let terrain ← buildTerrain tiles tile0 gc []
  let losStart : ℚ := ((wrap16 (terrain.headD 0 + startAltM) : ℤ) : ℚ)
  let losEnd : ℚ := ((wrap16 (terrain.getLastD 0 + endAltM) : ℤ) : ℚ)
  let los := linspace losStart losEnd terrain.length
  .ok ⟨d, stepSize, gc, terrain, los⟩

theorem linspace_length (y0 y1 : ℚ) (n : ℕ) : (linspace y0 y1 n).length = n := by
  unfold linspace
  rw [List.length_map, List.length_range]

theorem buildTerrain_length (tiles : GCoord ℚ → Except TerrainError Tile) :
    ∀ (gc : List (GCoord ℚ)) (tile : Tile) (acc out : List ℤ),
      buildTerrain tiles tile gc acc = .ok out → out.length = acc.length + gc.length := by
  intro gc
  induction gc with
  | nil =>
    intro tile acc out h
    simp only [buildTerrain, Except.ok.injEq] at h
    subst h
    simp
  | cons p rest ih =>
    intro tile acc out h
    simp only [buildTerrain] at h
    rcases hget : tile.get p with _ | elevation
    · rw [hget] at h
      rcases hstore : tiles p with e | tile2
      · rw [hstore] at h
        exact absurd h (by simp)
      · rw [hstore] at h
        have := ih tile2 ((tile2.getUnchecked p) :: acc) out h
        simp at this
        simp [this]
        omega
    · rw [hget] at h
      have := ih tile (elevation :: acc) out h
      simp at this
      simp [this]
      omega

/-- C6: for positive arc length and positive maximum step, the built
profile's three parallel vectors — the great-circle walk, the terrain
elevations, and the line-of-sight elevations — all have length
`N + 1` with `N = ceil(d / maxStep)`, matching the walker's emitted
point count. -/
theorem c6_profile_lengths (tiles : GCoord ℚ → Except TerrainError Tile)
    (startC endC : GCoord ℚ) (maxStepM : ℚ) (startAltM endAltM : ℤ)
    (d : ℚ) (pt : ℚ → GCoord ℚ) (prof : MProfile)
    (hd : 0 < d) (hs : 0 < maxStepM)
    (hbuild : profileBuild tiles startC endC maxStepM startAltM endAltM d pt = .ok prof) :
    prof.greatCircle.length = (⌈d / maxStepM⌉).toNat + 1 ∧
    prof.terrain.length = (⌈d / maxStepM⌉).toNat + 1 ∧
    prof.los.length = (⌈d / maxStepM⌉).toNat + 1 := by
  have hgc := collect_new_length startC endC pt d maxStepM hd hs
    ((⌈d / maxStepM⌉).toNat + 2) le_rfl
  simp only [profileBuild, bind, Except.bind] at hbuild
  rcases hstore : tiles startC with e | tile0
  · rw [hstore] at hbuild
    exact absurd hbuild (by simp)
  · rw [hstore] at hbuild
    dsimp only at hbuild
    rcases hterr : buildTerrain tiles tile0
        ((HIter.new startC endC pt d maxStepM).collect ((⌈d / maxStepM⌉).toNat + 2)) [] with
      e | terrain
    · rw [hterr] at hbuild
      exact absurd hbuild (by simp)
    · rw [hterr] at hbuild
      dsimp only at hbuild
      have hterrlen := buildTerrain_length tiles _ tile0 [] terrain hterr
      simp only [List.length_nil, Nat.zero_add, hgc] at hterrlen
      simp only [Except.ok.injEq] at hbuild
      subst hbuild
      refine ⟨hgc, hterrlen, ?_⟩
      simp [linspace_length, hterrlen]

/-- Over a store that always answers with a fixed tile, the terrain loop
never fails. -/
theorem buildTerrain_const_ok (t0 : Tile) :
    ∀ (gc : List (GCoord ℚ)) (tile : Tile) (acc : List ℤ),
      ∃ out, buildTerrain (fun _ => .ok t0) tile gc acc = .ok out := by
  intro gc
  induction gc with
  | nil =>
    intro tile acc
    exact ⟨acc.reverse, rfl⟩
  | cons p rest ih =>
    intro tile acc
    simp only [buildTerrain]
    rcases tile.get p with _ | elevation
    · exact ih t0 _
    · exact ih tile _

/-- Witness for `c6_profile_lengths`: a constant store answering with a
tombstone tile, arc length `1`, maximum step `1/3`, so `N = 3` and every
vector has `4` entries. -/
theorem c6_profile_lengths_witness :
    (0 : ℚ) < 1 ∧ (0 : ℚ) < 1/3 ∧
    ∃ prof : MProfile,
      profileBuild (fun _ => .ok (Tile.tombstone ⟨0, 0⟩)) ⟨1/2, 1/2⟩ ⟨1/2, 1/2⟩ (1/3) 0 0 1
          (fun _ => ⟨1/2, 1/2⟩) = .ok prof ∧
      prof.greatCircle.length = 4 ∧ prof.terrain.length = 4 ∧ prof.los.length = 4 := by
  refine ⟨by norm_num, by norm_num, ?_⟩
  obtain ⟨terrain, hterr⟩ := buildTerrain_const_ok (Tile.tombstone ⟨0, 0⟩)
    ((HIter.new (⟨1/2, 1/2⟩ : GCoord ℚ) ⟨1/2, 1/2⟩ (fun _ => ⟨1/2, 1/2⟩) 1 (1/3)).collect
      ((⌈(1 : ℚ) / (1/3)⌉).toNat + 2)) (Tile.tombstone ⟨0, 0⟩) []
  have hb : profileBuild (fun _ => .ok (Tile.tombstone ⟨0, 0⟩)) ⟨1/2, 1/2⟩ ⟨1/2, 1/2⟩ (1/3) 0 0 1
      (fun _ => ⟨1/2, 1/2⟩) = .ok
        ⟨1, 1 / (((HIter.new (⟨1/2, 1/2⟩ : GCoord ℚ) ⟨1/2, 1/2⟩ (fun _ => ⟨1/2, 1/2⟩) 1
              (1/3)).collect ((⌈(1 : ℚ) / (1/3)⌉).toNat + 2)).length - 1 : ℚ),
          (HIter.new (⟨1/2, 1/2⟩ : GCoord ℚ) ⟨1/2, 1/2⟩ (fun _ => ⟨1/2, 1/2⟩) 1 (1/3)).collect
            ((⌈(1 : ℚ) / (1/3)⌉).toNat + 2),
          terrain,
          linspace ((wrap16 (terrain.headD 0 + 0) : ℤ) : ℚ)
            ((wrap16 (terrain.getLastD 0 + 0) : ℤ) : ℚ) terrain.length⟩ := by
    simp only [profileBuild, bind, Except.bind]
    rw [hterr]
  have h := c6_profile_lengths (fun _ => .ok (Tile.tombstone ⟨0, 0⟩)) ⟨1/2, 1/2⟩ ⟨1/2, 1/2⟩
    (1/3) 0 0 1 (fun _ => ⟨1/2, 1/2⟩) _ (by norm_num) (by norm_num) hb
  have hceil : (⌈(1 : ℚ) / (1/3)⌉).toNat = 3 := by
    rw [show ⌈(1 : ℚ) / (1/3)⌉ = (3 : ℤ) by norm_num]
    rfl
  have h4 : (⌈(1 : ℚ) / (1/3)⌉).toNat + 1 = 4 := by rw [hceil]
  exact ⟨_, hb, h.1.trans h4, h.2.1.trans h4, h.2.2.trans h4⟩

/-! ## Claim C7: Fresnel-zone radii -/

/-- Model of `propah::fresnel::freq_to_wavelen`: `C / freq` with
`C = 299,792,458 m/s`. -/
noncomputable def freqToWavelen (freqHz : ℝ) : ℝ := 299792458 / freqHz

/-- The item `FresnelZoneIter::next` yields at index `n` of an
iteration of length `len`: `d1 = D·(n/(len − 1))`, `d2 = D − d1`,
`sqrt(zone · λ · d1 · d2 / D)`.  (`len − 1` is the Rust `usize`
subtraction `self.range.end - 1`.) -/
noncomputable def fresnelRadius (zone wavelength distanceM : ℝ) (len n : ℕ) : ℝ :=
  let d1 := distanceM * ((n : ℝ) / ((len - 1 : ℕ) : ℝ))
  let d2 := distanceM - d1
  Real.sqrt (zone * wavelength * d1 * d2 / distanceM)

/-- Model of `FresnelZone::new(zone, f_hz, d_m).iter(len)` collected: `len` radii
with the wavelength computed from the frequency. -/
noncomputable def fresnelZoneIterList (zone : ℕ) (fHz distanceM : ℝ) (len : ℕ) : List ℝ :=
  (List.range len).map
    (fun n : ℕ => fresnelRadius (zone : ℝ) (freqToWavelen fHz) distanceM len n)

/-- C7: the Fresnel iterator yields `sqrt(n·λ·d1·d2/D)`; the first and
last of `L ≥ 2` radii are `0`; and the concrete series
`FresnelZone::new(1, 900e6, 1e3).iter(3)` is `[0, r, 0]` with `r` equal
to `sqrt(149896229/1800000)`, which agrees with the claimed value
`9.125551094469735` to within `10⁻¹²` (the claimed decimal is that real
number rounded to `f64` precision). -/
theorem c7_fresnel_zone (zone wavelength distanceM : ℝ) (L : ℕ) (hL : 2 ≤ L) :
    fresnelRadius zone wavelength distanceM L 0 = 0 ∧
    fresnelRadius zone wavelength distanceM L (L - 1) = 0 ∧
    fresnelZoneIterList 1 (9 * 10 ^ 8) 1000 3 =
      [0, Real.sqrt (149896229 / 1800000), 0] ∧
    |Real.sqrt ((149896229 : ℝ) / 1800000) - 9.125551094469735| < 1 / 10 ^ 12 := by
  have hfirst : ∀ z w D : ℝ, ∀ len : ℕ, fresnelRadius z w D len 0 = 0 := by
    intro z w D len
    unfold fresnelRadius
    simp
  have hlast : ∀ z w D : ℝ, ∀ len : ℕ, 2 ≤ len → fresnelRadius z w D len (len - 1) = 0 := by
    intro z w D len hlen
    unfold fresnelRadius
    have hne : (((len - 1 : ℕ) : ℝ)) ≠ 0 := by
      have : len - 1 ≠ 0 := by omega
      exact_mod_cast this
    rw [div_self hne]
    simp
  refine ⟨hfirst zone wavelength distanceM L, hlast zone wavelength distanceM L hL, ?_, ?_⟩
  · have h0 := hfirst 1 (freqToWavelen (9 * 10 ^ 8)) 1000 3
    have h2 := hlast 1 (freqToWavelen (9 * 10 ^ 8)) 1000 3 (by omega)
    have h1 : fresnelRadius 1 (freqToWavelen (9 * 10 ^ 8)) 1000 3 1 =
        Real.sqrt (149896229 / 1800000) := by
      unfold fresnelRadius freqToWavelen
      norm_num
    unfold fresnelZoneIterList
    rw [show List.range 3 = [0, 1, 2] from rfl]
    simp only [List.map_cons, List.map_nil, Nat.cast_one]
    rw [show (3 - 1 : ℕ) = 2 from rfl] at h2
    rw [h0, h1, h2]
  · rw [abs_lt]
    constructor
    · have h := (Real.lt_sqrt (by norm_num : (0 : ℝ) ≤ 9.125551094469734)).mpr
        (by norm_num : (9.125551094469734 : ℝ) ^ 2 < 149896229 / 1800000)
      nlinarith [h]
    · have h := (Real.sqrt_lt' (by norm_num : (0 : ℝ) < 9.125551094469736)).mpr
        (by norm_num : (149896229 : ℝ) / 1800000 < 9.125551094469736 ^ 2)
      nlinarith [h]

/-- Witness for `c7_fresnel_zone` at `L = 3`: the first and third radii
of the concrete 900 MHz, 1 km series are zero. -/
theorem c7_fresnel_zone_witness :
    fresnelRadius 1 (freqToWavelen (9 * 10 ^ 8)) 1000 3 0 = 0 ∧
    fresnelRadius 1 (freqToWavelen (9 * 10 ^ 8)) 1000 3 (3 - 1) = 0 := by
  have h := c7_fresnel_zone 1 (freqToWavelen (9 * 10 ^ 8)) 1000 3 (by decide)
  exact ⟨h.1, h.2.1⟩

/-! ## Claim C10: earth-curve terrain cast -/

/-- Modelled from the spec: `terrain::constants::MEAN_EARTH_RADIUS`
(the file `constants.rs` is not part of the provided sources); the
specification fixes it as `6,371,008.8 m`. -/
noncomputable def meanEarthRadius : ℝ := 6371008.8

/-- Truncation toward zero on a real, the integer part of Rust's float
to integer `as` cast. -/
noncomputable def truncR (r : ℝ) : ℤ := if 0 ≤ r then ⌊r⌋ else ⌈r⌉

/-- Rust `as i16` on a float (`AsPrimitive<i16>`): truncate toward zero
and saturate at the `i16` bounds. -/
noncomputable def i16SatTrunc (r : ℝ) : ℤ := max (-32768) (min 32767 (truncR r))

/-- Model of `terrain::math::elevation_angle`: law-of-cosines angle with the
clamped `acos` argument, minus `π/2`. -/
noncomputable def elevationAngle (startElevM distanceM endElevM : ℝ) : ℝ :=
  let a := distanceM
  let b := startElevM + meanEarthRadius
  let c := endElevM + meanEarthRadius
  let inner0 := (a ^ 2 + b ^ 2 - c ^ 2) / ((1 + 1) * a * b)
  let inner := if inner0 < -1 then -1 else if inner0 > 1 then 1 else inner0
  Real.arccos inner - Real.pi / 2

/-- Model of `start_elev_alt` in `ProfileBuilder::build`: the first terrain
sample plus the start altitude (a release-mode `i16` addition), as a
float. -/
noncomputable def curveStartElevAlt (terrain : List ℤ) (startAltM : ℤ) : ℝ :=
  ((wrap16 (terrain.headD 0 + startAltM) : ℤ) : ℝ)

/-- Model of `end_elev_alt` in `ProfileBuilder::build`. -/
noncomputable def curveEndElevAlt (terrain : List ℤ) (endAltM : ℤ) : ℝ :=
  ((wrap16 (terrain.getLastD 0 + endAltM) : ℤ) : ℝ)

/-- The `nb` normalization intercept: `−start_elev_alt` when
normalizing, else `0`. -/
noncomputable def curveNb (terrain : List ℤ) (startAltM : ℤ) (normalize : Bool) : ℝ :=
  if normalize then -curveStartElevAlt terrain startAltM else 0

/-- The `nm` normalization slope: `(−end_elev_alt − nb)/distance` when
normalizing, else `0`. -/
noncomputable def curveNm (terrain : List ℤ) (startAltM endAltM : ℤ) (distanceM : ℝ)
    (normalize : Bool) : ℝ :=
  if normalize then
    (-curveEndElevAlt terrain endAltM - curveNb terrain startAltM normalize) / distanceM
  else 0

/-- The float height the earth-curve loop computes for index `idx` and
current elevation `elevM` before the cast back to `i16`. -/
noncomputable def bulgedHeight (startRadiusM elevAngleRad nb nm stepSizeM : ℝ)
    (normalize : Bool) (idx : ℕ) (elevM : ℤ) : ℝ :=
  let dDistanceM := (idx : ℝ) * stepSizeM
  let radiusM := (elevM : ℝ) + meanEarthRadius
  let chordAngleRad := dDistanceM / radiusM
  let cUnk := startRadiusM * Real.sin (elevAngleRad + Real.pi / 2) /
    Real.sin (Real.pi / 2 - elevAngleRad - chordAngleRad)
  if normalize then (radiusM - cUnk) + (-(nm * dDistanceM) - nb) else radiusM - cUnk

/-- The earth-curve pass of `ProfileBuilder::build`: replace every
terrain element by its bulged height, cast back to `i16` by the
truncating, saturating `as` cast. -/
noncomputable def earthCurveTerrain (terrain : List ℤ) (startAltM endAltM : ℤ)
    (distanceM stepSizeM : ℝ) (normalize : Bool) : List ℤ :=
  let startRadius := meanEarthRadius + curveStartElevAlt terrain startAltM
  let angle := elevationAngle (curveStartElevAlt terrain startAltM) distanceM
    (curveEndElevAlt terrain endAltM)
  let nb := curveNb terrain startAltM normalize
  let nm := curveNm terrain startAltM endAltM distanceM normalize
  terrain.enum.map
    (fun ie => i16SatTrunc (bulgedHeight startRadius angle nb nm stepSizeM normalize ie.1 ie.2))

/-- Model of `linspace` over the reals, for the line-of-sight vector computed
after the earth-curve pass. -/
noncomputable def linspaceR (y0 y1 : ℝ) (n : ℕ) : List ℝ :=
  (List.range n).map (fun x : ℕ => y0 + (x : ℝ) * ((y1 - y0) / ((n : ℝ) - 1)))

/-- The line-of-sight vector built from the (possibly curved) terrain:
`linspace(terrain[0] + start_alt, terrain[N−1] + end_alt, N)`, with both
anchors read from the `i16` terrain vector after the cast. -/
noncomputable def losFromTerrain (terrain : List ℤ) (startAltM endAltM : ℤ) : List ℝ :=
  linspaceR (curveStartElevAlt terrain startAltM) (curveEndElevAlt terrain endAltM)
    terrain.length

/-- C10: the earth-curve pass keeps the terrain vector's length and `i16`
element type; each element is exactly the float bulged height cast by the
truncating, saturating `as i16` cast (for in-range heights the cast is
plain truncation toward zero, discarding the fractional part); and the
line-of-sight vector is anchored on the post-cast integer terrain
values: its first entry is `terrain[0] + start_alt` and its last entry
is `terrain[N−1] + end_alt`, both whole numbers of meters. -/
theorem c10_terrain_i16_cast (terrain : List ℤ) (startAltM endAltM : ℤ)
    (distanceM stepSizeM : ℝ) (normalize : Bool) :
    (earthCurveTerrain terrain startAltM endAltM distanceM stepSizeM normalize).length =
      terrain.length ∧
    (∀ x ∈ earthCurveTerrain terrain startAltM endAltM distanceM stepSizeM normalize,
      -32768 ≤ x ∧ x ≤ 32767) ∧
    (∀ (i : ℕ) (hi : i < terrain.length)
        (hi2 : i <
          (earthCurveTerrain terrain startAltM endAltM distanceM stepSizeM normalize).length),
      (earthCurveTerrain terrain startAltM endAltM distanceM stepSizeM normalize).get ⟨i, hi2⟩ =
        i16SatTrunc (bulgedHeight (meanEarthRadius + curveStartElevAlt terrain startAltM)
          (elevationAngle (curveStartElevAlt terrain startAltM) distanceM
            (curveEndElevAlt terrain endAltM))
          (curveNb terrain startAltM normalize)
          (curveNm terrain startAltM endAltM distanceM normalize)
          stepSizeM normalize i (terrain.get ⟨i, hi⟩))) ∧
    (∀ h : ℝ, -32768 ≤ h → h ≤ 32767 →
      i16SatTrunc h = truncR h ∧ |((truncR h : ℤ) : ℝ) - h| < 1 ∧
      (0 ≤ h → ((truncR h : ℤ) : ℝ) ≤ h) ∧ (h < 0 → h ≤ ((truncR h : ℤ) : ℝ))) ∧
    (losFromTerrain terrain startAltM endAltM).length = terrain.length ∧
    (∀ h0 : 0 < (losFromTerrain terrain startAltM endAltM).length,
      (losFromTerrain terrain startAltM endAltM).get ⟨0, h0⟩ =
        curveStartElevAlt terrain startAltM) ∧
    (2 ≤ terrain.length →
      ∀ hL : terrain.length - 1 < (losFromTerrain terrain startAltM endAltM).length,
      (losFromTerrain terrain startAltM endAltM).get ⟨terrain.length - 1, hL⟩ =
        curveEndElevAlt terrain endAltM) ∧
    (∃ z1 z2 : ℤ, curveStartElevAlt terrain startAltM = (z1 : ℝ) ∧
      curveEndElevAlt terrain endAltM = (z2 : ℝ)) := by
  refine ⟨?_, ?_, ?_, ?_, ?_, ?_, ?_, ?_⟩
  · unfold earthCurveTerrain
    simp [List.enum_length]
  · intro x hx
    unfold earthCurveTerrain at hx
    simp only [List.mem_map] at hx
    obtain ⟨ie, _, hxeq⟩ := hx
    subst hxeq
    unfold i16SatTrunc
    omega
  · intro i hi hi2
    unfold earthCurveTerrain
    simp only [List.get_eq_getElem, List.getElem_map, List.getElem_enum]
  · intro h hlo hhi
    have htr : i16SatTrunc h = truncR h := by
      have hb : -32768 ≤ truncR h ∧ truncR h ≤ 32767 := by
        unfold truncR
        split_ifs with hpos
        · constructor
          · have : (0 : ℤ) ≤ ⌊h⌋ := Int.floor_nonneg.mpr hpos
            omega
          · have : ⌊h⌋ ≤ ⌊(32767 : ℝ)⌋ := Int.floor_le_floor hhi
            simpa using this
        · constructor
          · have h1 : ⌈(-32768 : ℝ)⌉ ≤ ⌈h⌉ := Int.ceil_le_ceil hlo
            have h2 : ⌈(-32768 : ℝ)⌉ = -32768 := by
              rw [show (-32768 : ℝ) = ((-32768 : ℤ) : ℝ) by norm_num, Int.ceil_intCast]
            omega
          · have h1 : ⌈h⌉ ≤ ⌈(0 : ℝ)⌉ := Int.ceil_le_ceil (by linarith)
            have h2 : ⌈(0 : ℝ)⌉ = 0 := Int.ceil_zero
            omega
      unfold i16SatTrunc
      omega
    refine ⟨htr, ?_, ?_, ?_⟩
    · unfold truncR
      split_ifs with hpos
      · rw [abs_lt]
        constructor
        · have := Int.sub_one_lt_floor h
          linarith
        · have := Int.floor_le h
          linarith
      · rw [abs_lt]
        constructor
        · have := Int.le_ceil h
          linarith
        · have := Int.ceil_lt_add_one h
          linarith
    · intro hpos
      unfold truncR
      rw [if_pos hpos]
      exact Int.floor_le h
    · intro hneg
      unfold truncR
      rw [if_neg (by linarith)]
      exact Int.le_ceil h
  · unfold losFromTerrain linspaceR
    simp
  · intro h0
    unfold losFromTerrain linspaceR
    simp only [List.get_eq_getElem, List.getElem_map, List.getElem_range]
    push_cast
    ring
  · intro h2 hL
    unfold losFromTerrain linspaceR
    simp only [List.get_eq_getElem, List.getElem_map, List.getElem_range]
    have hne : ((terrain.length : ℝ) - 1) ≠ 0 := by
      have : (2 : ℝ) ≤ (terrain.length : ℝ) := by exact_mod_cast h2
      intro hcontra
      linarith
    have hcast : ((terrain.length - 1 : ℕ) : ℝ) = (terrain.length : ℝ) - 1 := by
      have : 1 ≤ terrain.length := by omega
      push_cast [this]
      ring
    rw [hcast, mul_div_assoc', mul_comm, mul_div_assoc, div_self hne, mul_one]
    ring
  · exact ⟨wrap16 (terrain.headD 0 + startAltM), wrap16 (terrain.getLastD 0 + endAltM), rfl, rfl⟩

/-- Witness for `c10_terrain_i16_cast` on the two-sample terrain
`[5, 7]` with distance `100`, step `50`: the curved vector and the LOS
vector keep length `2`, and the in-range cast clause applies at the
concrete height `1/2`. -/
theorem c10_terrain_i16_cast_witness :
    (earthCurveTerrain [5, 7] 0 0 100 50 false).length = 2 ∧
    i16SatTrunc (1/2 : ℝ) = truncR (1/2 : ℝ) ∧
    (losFromTerrain [5, 7] 0 0).length = 2 := by
  have h := c10_terrain_i16_cast [5, 7] 0 0 100 50 false
  exact ⟨h.1.trans rfl, (h.2.2.2.1 (1/2) (by norm_num) (by norm_num)).1,
    h.2.2.2.2.1.trans rfl⟩

end Geoprop
